import Mathlib

/-!
Verification of the Alx_DjangoLearnLab repository's validation, access-control
and CRUD behaviour.  Python strings are embedded as `List Char`; every
function below is a direct translation of the corresponding Python
function in the repository (file and symbol named in its doc comment).
Fallible validation code (`raise ValidationError`) is embedded as
`Except (List Char) _`, the error carrying the message string.
-/

/-- Characters Python's `str.split()` / `\s` treats as whitespace
(restricted to the ASCII range used by the repository's data):
space (32), tab (9), newline (10), vertical tab (11), form feed (12),
carriage return (13). -/
def isPySpace (c : Char) : Bool :=
  c.toNat == 32 || c.toNat == 9 || c.toNat == 10 ||
  c.toNat == 11 || c.toNat == 12 || c.toNat == 13

/-- The words of a string in the sense of Python's `str.split()`:
maximal runs of non-whitespace characters, leading/trailing/interior
whitespace discarded. -/
def pyWords (s : List Char) : List (List Char) :=
  match s with
  | [] => []
  | c :: cs =>
    if isPySpace c then pyWords cs
    else (c :: cs.takeWhile (fun d => !isPySpace d)) ::
         pyWords (cs.dropWhile (fun d => !isPySpace d))
termination_by s.length
decreasing_by
  · simp only [List.length_cons]; omega
  · have h := (List.dropWhile_suffix (l := cs) (fun d => !isPySpace d)).length_le
    simp only [List.length_cons]; omega

/-- Join a list of words with single spaces (Python `" ".join(...)`). -/
def joinSp : List (List Char) → List Char
  | [] => []
  | [w] => w
  | w :: ws => w ++ ' ' :: joinSp ws

/-- Python `" ".join(s.split())`: collapse redundant whitespace.  Used by
`BookForm.clean_title`, `BookForm.clean_author`, `ExampleForm.clean_name`
and `BookSearchForm.clean_search` in
advanced_features_and_security/LibraryProject/bookshelf/forms.py. -/
def pySplitJoin (s : List Char) : List Char :=
  joinSp (pyWords s)

/-- The script-injection tokens recognised by the forms' regex
`<script|javascript:|onerror=|onclick=` (searched case-insensitively). -/
def xssTokens : List (List Char) :=
  ["<script".data, "javascript:".data, "onerror=".data, "onclick=".data]

/-- Python `re.search(r"<script|javascript:|onerror=|onclick=", s, re.IGNORECASE)`:
some token occurs in the case-folded string. -/
def xssSearch (s : List Char) : Bool :=
  xssTokens.any (fun tok => decide (tok <:+: s.map Char.toLower))

/-- BookForm.clean_title
(advanced_features_and_security/LibraryProject/bookshelf/forms.py):
require non-empty, collapse whitespace, require length ≥ 2, reject
script-injection patterns. -/
def clean_title (title : List Char) : Except (List Char) (List Char) :=
  if title.isEmpty then .error "Title is required.".data
  else if (pySplitJoin title).length < 2 then
    .error "Title must be at least 2 characters long.".data
  else if xssSearch (pySplitJoin title) then
    .error "Title contains invalid characters.".data
  else .ok (pySplitJoin title)

/-- BookForm.clean_author (same file): identical shape to `clean_title`. -/
def clean_author (author : List Char) : Except (List Char) (List Char) :=
  if author.isEmpty then .error "Author is required.".data
  else if (pySplitJoin author).length < 2 then
    .error "Author name must be at least 2 characters long.".data
  else if xssSearch (pySplitJoin author) then
    .error "Author name contains invalid characters.".data
  else .ok (pySplitJoin author)

/-- BookForm.clean_publication_year (same file): the year is required and
must lie in [1000, 2100].  Note: this validator does not consult the
current year at all. -/
def clean_publication_year (year : Option Int) : Except (List Char) Int :=
  match year with
  | none => .error "Publication year is required.".data
  | some y =>
    if y < 1000 ∨ 2100 < y then
      .error "Publication year must be between 1000 and 2100.".data
    else .ok y

/-- BookSerializer.validate_publication_year
(advanced-api-project/api/serializers.py): reject years after the current
year; `current_year` stands for `datetime.date.today().year`.  Note: this
validator has no lower bound and no [1000, 2100] range check. -/
def validate_publication_year (value : Int) (current_year : Int) :
    Except (List Char) Int :=
  if value > current_year then
    .error "Publication year cannot be in the future.".data
  else .ok value

/-- Characters Python's regex `[ \t]` matches. -/
def isSpTab (c : Char) : Bool :=
  c.toNat == 32 || c.toNat == 9

/-- Python `re.sub(r"[ \t]+", " ", s)` in `ExampleForm.clean_message`: each maximal
run of spaces/tabs becomes one space (newlines preserved). -/
def collapseSpTab (s : List Char) : List Char :=
  match s with
  | [] => []
  | c :: cs =>
    if isSpTab c then ' ' :: collapseSpTab (cs.dropWhile isSpTab)
    else c :: collapseSpTab cs
termination_by s.length
decreasing_by
  · have h := (List.dropWhile_suffix (l := cs) isSpTab).length_le
    simp only [List.length_cons]; omega
  · simp only [List.length_cons]; omega

/-- Index of the last `'\n'` of a list, if any. -/
def lastNlIdx (l : List Char) : Option Nat :=
  match l with
  | [] => none
  | c :: cs =>
    match lastNlIdx cs with
    | some i => some (i + 1)
    | none => if c.toNat == 10 then some 0 else none

/-- Python `re.sub(r"\n\s*\n", "\n\n", s)` in `ExampleForm.clean_message`.  The
regex engine matches at a `'\n'` whose following whitespace run contains
another `'\n'`; the greedy `\s*` makes the match extend to the last `'\n'`
of that run, the match is replaced by `"\n\n"`, and scanning resumes after
it. -/
def collapseBlank (s : List Char) : List Char :=
  match s with
  | [] => []
  | c :: cs =>
    if c.toNat == 10 then
      match lastNlIdx (cs.takeWhile isPySpace) with
      | some i => '\n' :: '\n' :: collapseBlank (cs.drop (i + 1))
      | none => c :: collapseBlank cs
    else c :: collapseBlank cs
termination_by s.length
decreasing_by
  · have h := List.length_drop (i + 1) cs
    simp only [List.length_cons]; omega
  · simp only [List.length_cons]; omega
  · simp only [List.length_cons]; omega

/-- Non-overlapping substring count, Python `s.count(pat)`. -/
def countSub (pat : List Char) (s : List Char) : Nat :=
  match s with
  | [] => 0
  | c :: cs =>
    if decide (pat <+: c :: cs) then 1 + countSub pat (cs.drop (pat.length - 1))
    else countSub pat cs
termination_by s.length
decreasing_by
  · have h := List.length_drop (pat.length - 1) cs
    simp only [List.length_cons]; omega
  · simp only [List.length_cons]; omega

/-- ExampleForm.clean_message (same forms.py): collapse space/tab runs,
collapse blank lines, reject messages with more than five links, reject
script-injection patterns. -/
def clean_message (message : List Char) : Except (List Char) (List Char) :=
  if countSub "http://".data (collapseBlank (collapseSpTab message)) +
      countSub "https://".data (collapseBlank (collapseSpTab message)) > 5 then
    .error "Message contains too many links.".data
  else if xssSearch (collapseBlank (collapseSpTab message)) then
    .error "Message contains invalid content.".data
  else .ok (collapseBlank (collapseSpTab message))

/-- Python regex `\w` (restricted to the ASCII range used here):
letters, digits, underscore. -/
def isWordChar (c : Char) : Bool :=
  (65 ≤ c.toNat && c.toNat ≤ 90) || (97 ≤ c.toNat && c.toNat ≤ 122) ||
  (48 ≤ c.toNat && c.toNat ≤ 57) || c.toNat == 95

/-- Character class kept by `re.sub(r"[^\w\s\-\']", "", search)` in
`BookSearchForm.clean_search`. -/
def isAllowedSearch (c : Char) : Bool :=
  isWordChar c || isPySpace c || c.toNat == 45 || c.toNat == 39

/-- BookSearchForm.clean_search
(advanced_features_and_security/LibraryProject/bookshelf/forms.py):
collapse whitespace, truncate to 200 characters, then strip every
character outside `[\w\s\-\']`.  It raises no ValidationError. -/
def clean_search (s : List Char) : List Char :=
  (if 200 < (pySplitJoin s).length then (pySplitJoin s).take 200
   else pySplitJoin s).filter isAllowedSearch

/-- The `search` form field of BookSearchForm: a CharField with
`max_length=200, required=False`; field-level validation rejects inputs
longer than 200 characters, then `clean_search` runs (and never rejects). -/
def bookSearchForm_run (s : List Char) : Except (List Char) (List Char) :=
  if 200 < s.length then .error "Ensure this value has at most 200 characters.".data
  else .ok (clean_search s)

/-- Characters allowed by `re.match(r"^[a-zA-Z\s\-']+$", name)` in
`ExampleForm.clean_name`. -/
def isNameChar (c : Char) : Bool :=
  (65 ≤ c.toNat && c.toNat ≤ 90) || (97 ≤ c.toNat && c.toNat ≤ 122) ||
  isPySpace c || c.toNat == 45 || c.toNat == 39

/-- Tokens of the regex `<|>|&lt;|&gt;|javascript:|onerror=` in
`ExampleForm.clean_name`. -/
def nameXssTokens : List (List Char) :=
  ["<".data, ">".data, "&lt;".data, "&gt;".data, "javascript:".data, "onerror=".data]

/-- The XSS search of `ExampleForm.clean_name` (case-insensitive). -/
def nameXssSearch (s : List Char) : Bool :=
  nameXssTokens.any (fun tok => decide (tok <:+: s.map Char.toLower))

/-- ExampleForm.clean_name: collapse whitespace, require only
letters/whitespace/hyphens/apostrophes (non-empty), reject XSS tokens. -/
def clean_name (name : List Char) : Except (List Char) (List Char) :=
  if (pySplitJoin name).isEmpty || !(pySplitJoin name).all isNameChar then
    .error "Name can only contain letters, spaces, hyphens, and apostrophes.".data
  else if nameXssSearch (pySplitJoin name) then
    .error "Name contains invalid characters.".data
  else .ok (pySplitJoin name)

/-- The domain part of an e-mail, Python `email.split("@")[-1]`. -/
def emailDomain (e : List Char) : List Char :=
  (e.splitOn '@').getLastD e

/-- ExampleForm.clean_email: lower-case the address and reject blocked
domains. -/
def clean_email (email : List Char) : Except (List Char) (List Char) :=
  if ["tempmail.com".data, "throwaway.email".data].contains
      (emailDomain (email.map Char.toLower)) then
    .error "Email from this domain is not allowed.".data
  else .ok (email.map Char.toLower)

/-- Modelled from the spec: the framework-supplied shape check of
`EmailValidator` on the `email` field (the validator itself is an
externally supplied collaborator, out of the specification's scope);
approximated as `local@domain` with non-empty local part and a dot in a
non-empty domain. -/
def basicEmailOk (e : List Char) : Bool :=
  match e.splitOn '@' with
  | [l, d] => !l.isEmpty && !d.isEmpty && d.contains '.'
  | _ => false

/-- Did an `Except`-valued validator accept? -/
def isOkE {ε α : Type} : Except ε α → Bool
  | .ok _ => true
  | .error _ => false

/-- A raw submission of ExampleForm
(advanced_features_and_security/LibraryProject/bookshelf/forms.py).
`age = none` models the optional field left blank; `agree = false` models
the checkbox unchecked. -/
structure ExampleInput where
  name : List Char
  email : List Char
  age : Option Int
  message : List Char
  agree : Bool

/-- Field-level validation of `name` (CharField `min_length=2,
max_length=100`) followed by `clean_name`. -/
def nameFieldClean (n : List Char) : Except (List Char) (List Char) :=
  if n.length < 2 then .error "Ensure this value has at least 2 characters.".data
  else if 100 < n.length then .error "Ensure this value has at most 100 characters.".data
  else clean_name n

/-- Field-level validation of `email` (EmailField) followed by
`clean_email`. -/
def emailFieldClean (e : List Char) : Except (List Char) (List Char) :=
  if !basicEmailOk e then .error "Enter a valid email address.".data
  else clean_email e

/-- Field-level validation of `age` (IntegerField `required=False,
min_value=0, max_value=150`). -/
def ageFieldClean (a : Option Int) : Except (List Char) (Option Int) :=
  match a with
  | none => .ok none
  | some v => if v < 0 ∨ 150 < v then .error "Age out of range.".data else .ok (some v)

/-- Field-level validation of `message` (CharField required,
`max_length=1000`) followed by `clean_message`. -/
def messageFieldClean (m : List Char) : Except (List Char) (List Char) :=
  if m.isEmpty then .error "This field is required.".data
  else if 1000 < m.length then .error "Ensure this value has at most 1000 characters.".data
  else clean_message m

/-- Field-level validation of `agree_to_terms` (BooleanField required). -/
def agreeFieldClean (b : Bool) : Except (List Char) Bool :=
  if b then .ok true else .error "You must agree to the terms and conditions.".data

/-- Django `cleaned_data.get("age")` as seen by `ExampleForm.clean`: `none` when
the field was blank or failed its own validation. -/
def exampleCleanedAge (i : ExampleInput) : Option Int :=
  match ageFieldClean i.age with
  | .ok v => v
  | .error _ => none

/-- Django `cleaned_data.get("agree_to_terms")` as seen by `ExampleForm.clean`:
falsy when the checkbox was unchecked (field error). -/
def exampleCleanedAgree (i : ExampleInput) : Bool :=
  match agreeFieldClean i.agree with
  | .ok b => b
  | .error _ => false

/-- ExampleForm.clean: the single cross-field rule
`age is not None and age < 13 and agree_to_terms`. -/
def exampleCrossError (i : ExampleInput) : Bool :=
  match exampleCleanedAge i with
  | some a => decide (a < 13) && exampleCleanedAgree i
  | none => false

/-- Validity of the whole ExampleForm (`is_valid()`): all field validations pass and the
cross-field rule of `ExampleForm.clean` raises no error. -/
def exampleFormIsValid (i : ExampleInput) : Bool :=
  isOkE (nameFieldClean i.name) && isOkE (emailFieldClean i.email) &&
  isOkE (ageFieldClean i.age) && isOkE (messageFieldClean i.message) &&
  isOkE (agreeFieldClean i.agree) && !exampleCrossError i

/-- The custom Book permissions declared on the bookshelf `Book` model
(advanced_features_and_security/LibraryProject/bookshelf/models.py). -/
inductive Perm
  | can_view
  | can_create
  | can_edit
  | can_delete
deriving DecidableEq, Repr

/-- A request caller: Django `request.user`.  An anonymous caller has
`isAuthenticated = false` and, as in Django, never holds a permission. -/
structure Caller where
  isAuthenticated : Bool
  perms : List Perm

/-- Django `user.has_perm`: anonymous users hold no permission. -/
def hasPerm (u : Caller) (p : Perm) : Bool :=
  u.isAuthenticated && u.perms.contains p

/-- A stored bookshelf book record
(advanced_features_and_security/LibraryProject/bookshelf/models.py:
title, author name, publication year). -/
structure BookRec where
  id : Nat
  title : List Char
  author : List Char
  publication_year : Int
deriving DecidableEq, Repr

/-- The POST data of a BookForm submission. -/
structure BookFormInput where
  title : List Char
  author : List Char
  publication_year : Option Int

/-- Cleaned BookForm data. -/
structure CleanedBook where
  title : List Char
  author : List Char
  publication_year : Int
deriving DecidableEq, Repr

/-- Validity of the whole BookForm (`is_valid()` / `cleaned_data`): the three custom field
cleaners must all accept (Django reports the errors per field; only the
first error is carried here, acceptance is identical). -/
def bookFormClean (i : BookFormInput) : Except (List Char) CleanedBook := do
  let t ← clean_title i.title
  let a ← clean_author i.author
  let y ← clean_publication_year i.publication_year
  return CleanedBook.mk t a y

/-- HTTP method of a request (the views distinguish only POST from the
rest). -/
inductive HttpMethod
  | GET
  | POST
deriving DecidableEq

/-- Outcome of a bookshelf view: `forbidden` is the PermissionDenied/403
raised by `@permission_required(..., raise_exception=True)`, `notFound`
the opaque 404 of `get_object_or_404`, `redirect` a redirect to a named
route, `render` a rendered template (carrying the displayed book, if
any). -/
inductive ViewResponse
  | forbidden
  | notFound
  | redirect (target : List Char)
  | render (template : List Char) (book : Option BookRec)
deriving DecidableEq, Repr

/-- book_delete
(advanced_features_and_security/LibraryProject/bookshelf/views.py):
permission gate `bookshelf.can_delete`, then `get_object_or_404`, then
delete on POST or a confirmation page on GET. -/
def book_delete (u : Caller) (pk : Nat) (m : HttpMethod) (db : List BookRec) :
    ViewResponse × List BookRec :=
  if !hasPerm u .can_delete then (.forbidden, db)
  else
    match db.find? (fun b => b.id == pk) with
    | none => (.notFound, db)
    | some book =>
      if m = .POST then (.redirect "book_list".data, db.filter (fun b => b.id != pk))
      else (.render "bookshelf/book_confirm_delete.html".data (some book), db)

/-- book_edit (same views.py): permission gate `bookshelf.can_edit`, then
`get_object_or_404`, then a BookForm round trip: on valid POST the record
is updated and the view redirects; otherwise the form page is rendered. -/
def book_edit (u : Caller) (pk : Nat) (m : HttpMethod) (post : BookFormInput)
    (db : List BookRec) : ViewResponse × List BookRec :=
  if !hasPerm u .can_edit then (.forbidden, db)
  else
    match db.find? (fun b => b.id == pk) with
    | none => (.notFound, db)
    | some book =>
      if m = .POST then
        match bookFormClean post with
        | .ok c =>
          (.redirect "book_list".data,
           db.map (fun b =>
             if b.id == pk then BookRec.mk b.id c.title c.author c.publication_year
             else b))
        | .error _ => (.render "bookshelf/book_form.html".data (some book), db)
      else (.render "bookshelf/book_form.html".data (some book), db)

/-- A book record of the advanced-api-project `Book` model
(advanced-api-project/advanced-api-project/api/models.py: title,
publication_year, author foreign key). -/
structure ApiBook where
  id : Nat
  title : List Char
  publication_year : Int
  authorId : Nat
deriving DecidableEq, Repr

/-- The persistent store behind the API views: the book table, the ids of
existing authors, and the autoincrement counter. -/
structure ApiState where
  books : List ApiBook
  authors : List Nat
  nextId : Nat

/-- Proposed data of a POST to BookCreateView. -/
structure BookInput where
  title : List Char
  publication_year : Int
  author : Nat

/-- Serializer validity (`BookSerializer.is_valid()`) for a create: the required CharField
`title` is non-blank, `validate_publication_year` accepts against the
current year, and the author foreign key references an existing Author. -/
def serializerValidate (authors : List Nat) (current_year : Int) (i : BookInput) :
    Bool :=
  !i.title.isEmpty && isOkE (validate_publication_year i.publication_year current_year)
    && authors.contains i.author

/-- Outcome of an API view. -/
inductive ApiResponse
  | unauthorized
  | badRequest
  | created (b : ApiBook)
  | ok (b : ApiBook)
  | notFound
deriving DecidableEq, Repr

/-- BookCreateView (advanced-api-project/api/views.py): permission class
IsAuthenticated, then serializer validation, then save: the new record
gets the next autoincrement id and is appended to the table. -/
def bookCreate (u : Caller) (current_year : Int) (i : BookInput) (st : ApiState) :
    ApiResponse × ApiState :=
  if !u.isAuthenticated then (.unauthorized, st)
  else if serializerValidate st.authors current_year i then
    let b := ApiBook.mk st.nextId i.title i.publication_year i.author
    (.created b, ApiState.mk (st.books ++ [b]) st.authors (st.nextId + 1))
  else (.badRequest, st)

/-- BookDetailView (same views.py): permission class
IsAuthenticatedOrReadOnly, so a GET is always allowed; it returns the
record with the requested id or an opaque 404. -/
def bookRetrieve (pk : Nat) (st : ApiState) : ApiResponse :=
  match st.books.find? (fun b => b.id == pk) with
  | some b => .ok b
  | none => .notFound

/-- BookDeleteView (same views.py): permission class IsAuthenticated; an
unauthenticated DELETE is rejected before any queryset access. -/
def bookDeleteApi (u : Caller) (pk : Nat) (st : ApiState) : ApiResponse × ApiState :=
  if !u.isAuthenticated then (.unauthorized, st)
  else
    match st.books.find? (fun b => b.id == pk) with
    | none => (.notFound, st)
    | some b => (.ok b, ApiState.mk (st.books.filter (fun x => x.id != pk)) st.authors st.nextId)

/-- Modelled from the spec: the exact-match `publication_year` filter the
spec's "exact match on year" attributes to BookListView's declaration
`filterset_fields = [..., "publication_year"]`
(advanced-api-project/api/views.py); the filter backend executing the
declaration (django-filter's DjangoFilterBackend) is framework code
outside src/. -/
def filterBooksByYear (books : List ApiBook) (y : Int) : List ApiBook :=
  books.filter (fun b => b.publication_year == y)

/-- The role enumeration of UserProfile
(django-models/LibraryProject/relationship_app/models.py). -/
inductive Role
  | Admin
  | Librarian
  | Member
deriving DecidableEq, Repr

/-- A UserProfile row: owning user id and role. -/
structure Profile where
  userId : Nat
  role : Role
deriving DecidableEq, Repr

/-- The auth tables: user ids and their profiles. -/
structure AuthState where
  users : List Nat
  profiles : List Profile

/-- The `post_save, created=True` receiver create_user_profile
(django-models/LibraryProject/relationship_app/models.py and
advanced_features_and_security/LibraryProject/relationship_app/models.py):
`UserProfile.objects.create(user=instance)` — the role field keeps its
declared default `"Member"`. -/
def create_user_profile (uid : Nat) (st : AuthState) : AuthState :=
  AuthState.mk st.users (st.profiles ++ [Profile.mk uid Role.Member])

/-- Creating a user: the row is inserted and the post_save hook fires
with `created=True`, which runs `create_user_profile`.  User ids are
unique, so creation of an existing id is a no-op refusal. -/
def createUser (uid : Nat) (st : AuthState) : AuthState :=
  if st.users.contains uid then st
  else create_user_profile uid (AuthState.mk (st.users ++ [uid]) st.profiles)

/-- Saving an existing user: the post_save hook fires with
`created=False`; `create_user_profile` does nothing and the
advanced-variant receiver save_user_profile merely re-saves the existing
profile row, leaving the tables unchanged. -/
def saveUser (_uid : Nat) (st : AuthState) : AuthState :=
  st

/-- Changing a profile's role (the admin-side update of the `role`
field). -/
def setRole (uid : Nat) (r : Role) (st : AuthState) : AuthState :=
  AuthState.mk st.users
    (st.profiles.map (fun p => if p.userId == uid then Profile.mk p.userId r else p))

/-- Deleting a user: the row is removed and `on_delete=models.CASCADE` on
`UserProfile.user` removes the user's profiles. -/
def deleteUser (uid : Nat) (st : AuthState) : AuthState :=
  AuthState.mk (st.users.filter (fun v => v != uid))
    (st.profiles.filter (fun p => p.userId != uid))

/-- The invariant of the spec's data model: a UserProfile exists whenever
its owning user exists. -/
def profileInvariant (st : AuthState) : Prop :=
  ∀ u ∈ st.users, ∃ p ∈ st.profiles, p.userId = u

theorem charEq_of_toNat {a b : Char} (h : a.toNat = b.toNat) : a = b := by
  apply Char.ext
  exact UInt32.toNat.inj h

theorem toNat_toLower (c : Char) :
    (Char.toLower c).toNat =
      if 65 ≤ c.toNat ∧ c.toNat ≤ 90 then c.toNat + 32 else c.toNat := by
  unfold Char.toLower
  split
  · next h =>
    have hv : (c.toNat + 32).isValidChar := by
      unfold Nat.isValidChar
      omega
    rw [if_pos h]
    unfold Char.ofNat
    rw [dif_pos hv]
    rfl
  · next h => rw [if_neg h]

theorem isPySpace_iff (c : Char) :
    isPySpace c = true ↔
      (c.toNat = 32 ∨ c.toNat = 9 ∨ c.toNat = 10 ∨
       c.toNat = 11 ∨ c.toNat = 12 ∨ c.toNat = 13) := by
  simp only [isPySpace, Bool.or_eq_true, beq_iff_eq]
  tauto

theorem isPySpace_toLower (c : Char) : isPySpace (Char.toLower c) = isPySpace c := by
  have h := toNat_toLower c
  by_cases hr : 65 ≤ c.toNat ∧ c.toNat ≤ 90
  · rw [if_pos hr] at h
    have l : isPySpace (Char.toLower c) = false := by
      rw [← Bool.not_eq_true, isPySpace_iff, h]
      omega
    have r : isPySpace c = false := by
      rw [← Bool.not_eq_true, isPySpace_iff]
      omega
    rw [l, r]
  · rw [if_neg hr] at h
    rw [charEq_of_toNat h]

theorem toLower_eq_self_of_lower {c d : Char}
    (hd : d.toNat < 97 ∨ 122 < d.toNat) (h : Char.toLower c = d) : c = d := by
  have hn := toNat_toLower c
  rw [h] at hn
  by_cases hr : 65 ≤ c.toNat ∧ c.toNat ≤ 90
  · rw [if_pos hr] at hn
    omega
  · rw [if_neg hr] at hn
    exact charEq_of_toNat hn.symm

theorem pyWords_nil : pyWords [] = [] := by
  rw [pyWords]

theorem pyWords_cons_sp {c : Char} {cs : List Char} (h : isPySpace c = true) :
    pyWords (c :: cs) = pyWords cs := by
  rw [pyWords]
  simp [h]

theorem pyWords_cons_w {c : Char} {cs : List Char} (h : isPySpace c = false) :
    pyWords (c :: cs) =
      (c :: cs.takeWhile (fun d => !isPySpace d)) ::
        pyWords (cs.dropWhile (fun d => !isPySpace d)) := by
  rw [pyWords]
  simp [h]

theorem dropWhile_cons_head {p : Char → Bool} {l : List Char} {d : Char}
    {b : List Char} (h : l.dropWhile p = d :: b) : p d = false := by
  induction l with
  | nil => simp at h
  | cons c cs ih =>
    rw [List.dropWhile_cons] at h
    split at h
    · exact ih h
    · next hp =>
      cases h
      exact Bool.not_eq_true _ ▸ hp

theorem takeWhile_append_all {p : Char → Bool} {l₁ l₂ : List Char}
    (h : ∀ c ∈ l₁, p c = true) :
    (l₁ ++ l₂).takeWhile p = l₁ ++ l₂.takeWhile p := by
  induction l₁ with
  | nil => simp
  | cons c cs ih =>
    rw [List.cons_append, List.takeWhile_cons, if_pos (h c (List.mem_cons_self c cs))]
    rw [ih (fun x hx => h x (List.mem_cons_of_mem c hx)), List.cons_append]

theorem dropWhile_append_all {p : Char → Bool} {l₁ l₂ : List Char}
    (h : ∀ c ∈ l₁, p c = true) :
    (l₁ ++ l₂).dropWhile p = l₂.dropWhile p := by
  induction l₁ with
  | nil => simp
  | cons c cs ih =>
    rw [List.cons_append, List.dropWhile_cons, if_pos (h c (List.mem_cons_self c cs))]
    exact ih (fun x hx => h x (List.mem_cons_of_mem c hx))

theorem prefix_split_at_sep {t : List Char} {d : Char}
    (ht : ∀ c ∈ t, isPySpace c = false) (hd : isPySpace d = true) :
    ∀ {a b : List Char}, t <+: a ++ d :: b → t <+: a := by
  induction t with
  | nil => intro a b _; exact List.nil_prefix
  | cons c t' ih =>
    intro a b h
    cases a with
    | nil =>
      rw [List.nil_append, List.cons_prefix_cons] at h
      have := ht c (List.mem_cons_self c t')
      rw [h.1, hd] at this
      cases this
    | cons x a' =>
      rw [List.cons_append, List.cons_prefix_cons] at h
      rw [List.cons_prefix_cons]
      exact ⟨h.1, ih (fun y hy => ht y (List.mem_cons_of_mem c hy)) h.2⟩

theorem infix_split_at_sep {t : List Char} {d : Char}
    (ht : ∀ c ∈ t, isPySpace c = false) (hd : isPySpace d = true) :
    ∀ {a b : List Char}, t <:+: a ++ d :: b → t <:+: a ∨ t <:+: b := by
  intro a
  induction a with
  | nil =>
    intro b h
    rw [List.nil_append, List.infix_cons_iff] at h
    rcases h with hp | hi
    · cases t with
      | nil => exact Or.inl List.nil_infix
      | cons c t' =>
        rw [List.cons_prefix_cons] at hp
        have := ht c (List.mem_cons_self c t')
        rw [hp.1, hd] at this
        cases this
    · exact Or.inr hi
  | cons x a' ih =>
    intro b h
    rw [List.cons_append, List.infix_cons_iff] at h
    rcases h with hp | hi
    · exact Or.inl (List.IsPrefix.isInfix (prefix_split_at_sep ht hd (a := x :: a')
        (b := b) (by rwa [List.cons_append])))
    · rcases ih hi with h1 | h2
      · exact Or.inl (h1.trans (List.infix_cons (List.infix_refl a')))
      · exact Or.inr h2

theorem pyWords_good :
    ∀ (s : List Char), ∀ w ∈ pyWords s, w ≠ [] ∧ ∀ c ∈ w, isPySpace c = false := by
  intro s
  induction s using pyWords.induct with
  | case1 => rw [pyWords_nil]; intro w hw; cases hw
  | case2 c cs h ih =>
    rw [pyWords_cons_sp h]
    exact ih
  | case3 c cs h ih =>
    rw [pyWords_cons_w (Bool.not_eq_true _ ▸ h)]
    intro w hw
    rcases List.mem_cons.mp hw with rfl | hw'
    · refine ⟨List.cons_ne_nil _ _, ?_⟩
      intro x hx
      rcases List.mem_cons.mp hx with rfl | hx'
      · exact Bool.not_eq_true _ ▸ h
      · have := List.mem_takeWhile_imp hx'
        simpa using this
    · exact ih w hw'

theorem mem_pyWords_infix :
    ∀ (s : List Char), ∀ w ∈ pyWords s, w <:+: s := by
  intro s
  induction s using pyWords.induct with
  | case1 => rw [pyWords_nil]; intro w hw; cases hw
  | case2 c cs h ih =>
    rw [pyWords_cons_sp h]
    intro w hw
    exact List.infix_cons (ih w hw)
  | case3 c cs h ih =>
    rw [pyWords_cons_w (Bool.not_eq_true _ ▸ h)]
    intro w hw
    rcases List.mem_cons.mp hw with rfl | hw'
    · exact List.IsPrefix.isInfix (List.cons_prefix_cons.mpr ⟨rfl, List.takeWhile_prefix _⟩)
    · exact List.infix_cons
        ((ih w hw').trans (List.IsSuffix.isInfix (List.dropWhile_suffix _)))

theorem infix_mem_word {t : List Char} (hne : t ≠ [])
    (ht : ∀ c ∈ t, isPySpace c = false) :
    ∀ (s : List Char), t <:+: s → ∃ w ∈ pyWords s, t <:+: w := by
  intro s
  induction s using pyWords.induct with
  | case1 =>
    intro h
    exact absurd (List.eq_nil_of_infix_nil h) hne
  | case2 c cs h ih =>
    intro hinf
    rw [pyWords_cons_sp h]
    rcases List.infix_cons_iff.mp hinf with hp | hi
    · cases t with
      | nil => exact absurd rfl hne
      | cons e t' =>
        rw [List.cons_prefix_cons] at hp
        have := ht e (List.mem_cons_self e t')
        rw [hp.1, h] at this
        cases this
    · exact ih hi
  | case3 c cs h ih =>
    intro hinf
    have hcw : isPySpace c = false := Bool.not_eq_true _ ▸ h
    have hsplit : c :: cs =
        (c :: cs.takeWhile (fun d => !isPySpace d)) ++
          cs.dropWhile (fun d => !isPySpace d) := by
      rw [List.cons_append, List.takeWhile_append_dropWhile]
    rw [pyWords_cons_w hcw]
    cases hrest : cs.dropWhile (fun d => !isPySpace d) with
    | nil =>
      refine ⟨c :: cs.takeWhile (fun d => !isPySpace d), List.mem_cons_self _ _, ?_⟩
      rw [hsplit, hrest, List.append_nil] at hinf
      exact hinf
    | cons d b =>
      have hd : isPySpace d = true := by
        have := dropWhile_cons_head hrest
        simpa using this
      rw [hsplit, hrest] at hinf
      rcases infix_split_at_sep ht hd hinf with h1 | h2
      · exact ⟨c :: cs.takeWhile (fun d => !isPySpace d), List.mem_cons_self _ _, h1⟩
      · have h3 : t <:+: cs.dropWhile (fun d => !isPySpace d) := by
          rw [hrest]
          exact List.infix_cons h2
        obtain ⟨w, hwmem, hwt⟩ := ih h3
        rw [hrest] at hwmem
        exact ⟨w, List.mem_cons_of_mem _ hwmem, hwt⟩

theorem notSpacePred_comp_toLower :
    (fun d => !isPySpace d) ∘ Char.toLower = fun d => !isPySpace d := by
  funext d
  simp [Function.comp, isPySpace_toLower]

theorem pyWords_map_toLower :
    ∀ (s : List Char),
      pyWords (s.map Char.toLower) = (pyWords s).map (List.map Char.toLower) := by
  intro s
  induction s using pyWords.induct with
  | case1 => simp [pyWords_nil]
  | case2 c cs h ih =>
    rw [List.map_cons, pyWords_cons_sp (by rw [isPySpace_toLower]; exact h),
      pyWords_cons_sp h, ih]
  | case3 c cs h ih =>
    have hcw : isPySpace c = false := Bool.not_eq_true _ ▸ h
    rw [List.map_cons, pyWords_cons_w (by rw [isPySpace_toLower]; exact hcw),
      pyWords_cons_w hcw, List.takeWhile_map, List.dropWhile_map,
      notSpacePred_comp_toLower, ih, List.map_cons, List.map_cons]

theorem pyWords_word_append {w : List Char} {d : Char} {rest : List Char}
    (hne : w ≠ []) (hw : ∀ c ∈ w, isPySpace c = false) (hd : isPySpace d = true) :
    pyWords (w ++ d :: rest) = w :: pyWords rest := by
  cases w with
  | nil => exact absurd rfl hne
  | cons c w' =>
    rw [List.cons_append, pyWords_cons_w (hw c (List.mem_cons_self c w'))]
    have hall : ∀ x ∈ w', (fun e => !isPySpace e) x = true := by
      intro x hx
      simp [hw x (List.mem_cons_of_mem c hx)]
    rw [takeWhile_append_all hall, dropWhile_append_all hall]
    rw [List.takeWhile_cons, if_neg (by simp [hd])]
    rw [List.dropWhile_cons, if_neg (by simp [hd])]
    rw [List.append_nil, pyWords_cons_sp hd]

theorem pyWords_single_word {w : List Char}
    (hne : w ≠ []) (hw : ∀ c ∈ w, isPySpace c = false) :
    pyWords w = [w] := by
  cases w with
  | nil => exact absurd rfl hne
  | cons c w' =>
    rw [pyWords_cons_w (hw c (List.mem_cons_self c w'))]
    have hall : ∀ x ∈ w', (fun e => !isPySpace e) x = true := by
      intro x hx
      simp [hw x (List.mem_cons_of_mem c hx)]
    rw [List.takeWhile_eq_self_iff.mpr hall, List.dropWhile_eq_nil_iff.mpr hall,
      pyWords_nil]

theorem pyWords_joinSp :
    ∀ (L : List (List Char)),
      (∀ w ∈ L, w ≠ [] ∧ ∀ c ∈ w, isPySpace c = false) →
      pyWords (joinSp L) = L := by
  intro L
  induction L with
  | nil => intro _; rw [joinSp, pyWords_nil]
  | cons w L' ih =>
    intro hL
    obtain ⟨hne, hw⟩ := hL w (List.mem_cons_self w L')
    cases L' with
    | nil => exact pyWords_single_word hne hw
    | cons w₂ L'' =>
      have : joinSp (w :: w₂ :: L'') = w ++ ' ' :: joinSp (w₂ :: L'') := rfl
      rw [this, pyWords_word_append hne hw (by decide),
        ih (fun x hx => hL x (List.mem_cons_of_mem w hx))]

theorem pyWords_pySplitJoin (s : List Char) :
    pyWords (pySplitJoin s) = pyWords s := by
  rw [pySplitJoin]
  exact pyWords_joinSp (pyWords s) (pyWords_good s)

theorem collapseSpTab_nil : collapseSpTab [] = [] := by
  rw [collapseSpTab]

theorem collapseSpTab_cons_st {c : Char} {cs : List Char} (h : isSpTab c = true) :
    collapseSpTab (c :: cs) = ' ' :: collapseSpTab (cs.dropWhile isSpTab) := by
  rw [collapseSpTab]
  simp [h]

theorem collapseSpTab_cons_not {c : Char} {cs : List Char} (h : isSpTab c = false) :
    collapseSpTab (c :: cs) = c :: collapseSpTab cs := by
  rw [collapseSpTab]
  simp [h]

theorem isSpTab_isPySpace {c : Char} (h : isSpTab c = true) : isPySpace c = true := by
  rw [isPySpace_iff]
  simp only [isSpTab, Bool.or_eq_true, beq_iff_eq] at h
  omega

theorem pyWords_dropWhile_ws {q : Char → Bool}
    (hq : ∀ c, q c = true → isPySpace c = true) :
    ∀ (l : List Char), pyWords (l.dropWhile q) = pyWords l := by
  intro l
  induction l with
  | nil => simp
  | cons d ds ih =>
    rw [List.dropWhile_cons]
    split
    · next hqd => rw [ih, pyWords_cons_sp (hq d hqd)]
    · rfl

theorem collapseSpTab_word_comm :
    ∀ (l : List Char),
      (collapseSpTab l).takeWhile (fun d => !isPySpace d) =
        l.takeWhile (fun d => !isPySpace d) ∧
      (collapseSpTab l).dropWhile (fun d => !isPySpace d) =
        collapseSpTab (l.dropWhile (fun d => !isPySpace d)) := by
  intro l
  induction l with
  | nil => constructor <;> simp [collapseSpTab_nil]
  | cons d ds ih =>
    by_cases hst : isSpTab d = true
    · have hws : isPySpace d = true := isSpTab_isPySpace hst
      rw [collapseSpTab_cons_st hst]
      constructor
      · rw [List.takeWhile_cons, if_neg (by decide), List.takeWhile_cons,
          if_neg (by simp [hws])]
      · rw [List.dropWhile_cons, if_neg (by decide), List.dropWhile_cons,
          if_neg (by simp [hws]), collapseSpTab_cons_st hst]
    · have hst' : isSpTab d = false := Bool.not_eq_true _ ▸ hst
      rw [collapseSpTab_cons_not hst']
      by_cases hws : isPySpace d = true
      · constructor
        · rw [List.takeWhile_cons, if_neg (by simp [hws]), List.takeWhile_cons,
            if_neg (by simp [hws])]
        · rw [List.dropWhile_cons, if_neg (by simp [hws]), List.dropWhile_cons,
            if_neg (by simp [hws]), collapseSpTab_cons_not hst']
      · have hws' : isPySpace d = false := Bool.not_eq_true _ ▸ hws
        constructor
        · rw [List.takeWhile_cons, if_pos (by simp [hws']), List.takeWhile_cons,
            if_pos (by simp [hws']), ih.1]
        · rw [List.dropWhile_cons, if_pos (by simp [hws']), List.dropWhile_cons,
            if_pos (by simp [hws']), ih.2]

theorem pyWords_collapseSpTab (s : List Char) :
    pyWords (collapseSpTab s) = pyWords s := by
  cases s with
  | nil => rw [collapseSpTab_nil]
  | cons c cs =>
    by_cases hst : isSpTab c = true
    · have hws : isPySpace c = true := isSpTab_isPySpace hst
      rw [collapseSpTab_cons_st hst, pyWords_cons_sp (by decide),
        pyWords_collapseSpTab (cs.dropWhile isSpTab),
        pyWords_dropWhile_ws (fun x hx => isSpTab_isPySpace hx) cs,
        pyWords_cons_sp hws]
    · have hst' : isSpTab c = false := Bool.not_eq_true _ ▸ hst
      rw [collapseSpTab_cons_not hst']
      by_cases hws : isPySpace c = true
      · rw [pyWords_cons_sp hws, pyWords_collapseSpTab cs, pyWords_cons_sp hws]
      · have hws' : isPySpace c = false := Bool.not_eq_true _ ▸ hws
        rw [pyWords_cons_w hws', pyWords_cons_w hws',
          (collapseSpTab_word_comm cs).1, (collapseSpTab_word_comm cs).2,
          pyWords_collapseSpTab (cs.dropWhile (fun d => !isPySpace d))]
termination_by s.length
decreasing_by
  all_goals simp only [List.length_cons]
  all_goals
    first
    | omega
    | (have h9 := (List.dropWhile_suffix (l := tail) isSpTab).length_le
       omega)
    | (have h9 := (List.dropWhile_suffix (l := tail) (fun d => !isPySpace d)).length_le
       omega)

theorem collapseBlank_nil : collapseBlank [] = [] := by
  rw [collapseBlank]

theorem collapseBlank_cons_some {c : Char} {cs : List Char} {i : Nat}
    (hc : c.toNat = 10) (hm : lastNlIdx (cs.takeWhile isPySpace) = some i) :
    collapseBlank (c :: cs) = '\n' :: '\n' :: collapseBlank (cs.drop (i + 1)) := by
  rw [collapseBlank]
  simp [hc, hm]

theorem collapseBlank_cons_none {c : Char} {cs : List Char}
    (hc : c.toNat = 10) (hm : lastNlIdx (cs.takeWhile isPySpace) = none) :
    collapseBlank (c :: cs) = c :: collapseBlank cs := by
  rw [collapseBlank]
  simp [hc, hm]

theorem collapseBlank_cons_not {c : Char} {cs : List Char} (hc : ¬ c.toNat = 10) :
    collapseBlank (c :: cs) = c :: collapseBlank cs := by
  rw [collapseBlank]
  simp [hc]

theorem lastNlIdx_lt :
    ∀ (l : List Char) (i : Nat), lastNlIdx l = some i → i < l.length := by
  intro l
  induction l with
  | nil => intro i h; simp [lastNlIdx] at h
  | cons c cs ih =>
    intro i h
    cases hm : lastNlIdx cs with
    | some j =>
      simp only [lastNlIdx, hm, Option.some.injEq] at h
      have hj := ih j hm
      simp only [List.length_cons]
      omega
    | none =>
      simp only [lastNlIdx, hm] at h
      split at h
      · simp only [Option.some.injEq] at h
        simp only [List.length_cons]
        omega
      · cases h

theorem pyWords_drop_of_ws :
    ∀ (n : Nat) (l : List Char),
      (∀ c ∈ l.take n, isPySpace c = true) → pyWords (l.drop n) = pyWords l := by
  intro n
  induction n with
  | zero => intro l _; rw [List.drop_zero]
  | succ m ih =>
    intro l hl
    cases l with
    | nil => rfl
    | cons d ds =>
      rw [List.drop_succ_cons,
        ih ds (fun c hc => hl c (by rw [List.take_succ_cons]; exact List.mem_cons_of_mem d hc)),
        pyWords_cons_sp (hl d (by rw [List.take_succ_cons]; exact List.mem_cons_self d _))]

theorem take_of_takeWhile_ws {cs : List Char} {i : Nat}
    (h : i < (cs.takeWhile isPySpace).length) :
    ∀ c ∈ cs.take (i + 1), isPySpace c = true := by
  obtain ⟨r, hr⟩ := List.takeWhile_prefix (l := cs) isPySpace
  intro c hc
  have heq : cs.take (i + 1) = (cs.takeWhile isPySpace).take (i + 1) := by
    conv_lhs => rw [← hr]
    rw [List.take_append_of_le_length (by omega)]
  rw [heq] at hc
  exact List.mem_takeWhile_imp (List.take_subset _ _ hc)

theorem nl_isPySpace {c : Char} (hc : c.toNat = 10) : isPySpace c = true := by
  rw [isPySpace_iff]
  omega

theorem collapseBlank_word_comm :
    ∀ (l : List Char),
      (collapseBlank l).takeWhile (fun d => !isPySpace d) =
        l.takeWhile (fun d => !isPySpace d) ∧
      (collapseBlank l).dropWhile (fun d => !isPySpace d) =
        collapseBlank (l.dropWhile (fun d => !isPySpace d)) := by
  intro l
  induction l with
  | nil => constructor <;> simp [collapseBlank_nil]
  | cons d ds ih =>
    by_cases hd : d.toNat = 10
    · have hws : isPySpace d = true := nl_isPySpace hd
      cases hm : lastNlIdx (ds.takeWhile isPySpace) with
      | some i =>
        rw [collapseBlank_cons_some hd hm]
        constructor
        · rw [List.takeWhile_cons, if_neg (by decide), List.takeWhile_cons,
            if_neg (by simp [hws])]
        · rw [List.dropWhile_cons, if_neg (by decide), List.dropWhile_cons,
            if_neg (by simp [hws]), collapseBlank_cons_some hd hm]
      | none =>
        rw [collapseBlank_cons_none hd hm]
        constructor
        · rw [List.takeWhile_cons, if_neg (by simp [hws]), List.takeWhile_cons,
            if_neg (by simp [hws])]
        · rw [List.dropWhile_cons, if_neg (by simp [hws]), List.dropWhile_cons,
            if_neg (by simp [hws]), collapseBlank_cons_none hd hm]
    · rw [collapseBlank_cons_not hd]
      by_cases hws : isPySpace d = true
      · constructor
        · rw [List.takeWhile_cons, if_neg (by simp [hws]), List.takeWhile_cons,
            if_neg (by simp [hws])]
        · rw [List.dropWhile_cons, if_neg (by simp [hws]), List.dropWhile_cons,
            if_neg (by simp [hws]), collapseBlank_cons_not hd]
      · have hws' : isPySpace d = false := Bool.not_eq_true _ ▸ hws
        constructor
        · rw [List.takeWhile_cons, if_pos (by simp [hws']), List.takeWhile_cons,
            if_pos (by simp [hws']), ih.1]
        · rw [List.dropWhile_cons, if_pos (by simp [hws']), List.dropWhile_cons,
            if_pos (by simp [hws']), ih.2]

theorem pyWords_collapseBlank (s : List Char) :
    pyWords (collapseBlank s) = pyWords s := by
  cases s with
  | nil => rw [collapseBlank_nil]
  | cons c cs =>
    by_cases hc : c.toNat = 10
    · have hws : isPySpace c = true := nl_isPySpace hc
      cases hm : lastNlIdx (cs.takeWhile isPySpace) with
      | some i =>
        rw [collapseBlank_cons_some hc hm, pyWords_cons_sp (by decide),
          pyWords_cons_sp (by decide), pyWords_collapseBlank (cs.drop (i + 1)),
          pyWords_drop_of_ws (i + 1) cs
            (take_of_takeWhile_ws (lastNlIdx_lt _ i hm)),
          pyWords_cons_sp hws]
      | none =>
        rw [collapseBlank_cons_none hc hm, pyWords_cons_sp hws,
          pyWords_collapseBlank cs, pyWords_cons_sp hws]
    · rw [collapseBlank_cons_not hc]
      by_cases hws : isPySpace c = true
      · rw [pyWords_cons_sp hws, pyWords_collapseBlank cs, pyWords_cons_sp hws]
      · have hws' : isPySpace c = false := Bool.not_eq_true _ ▸ hws
        rw [pyWords_cons_w hws', pyWords_cons_w hws',
          (collapseBlank_word_comm cs).1, (collapseBlank_word_comm cs).2,
          pyWords_collapseBlank (cs.dropWhile (fun d => !isPySpace d))]
termination_by s.length
decreasing_by
  all_goals simp only [List.length_cons]
  all_goals
    first
    | omega
    | (have h9 := List.length_drop (i + 1) tail
       omega)
    | (have h9 := (List.dropWhile_suffix (l := tail) (fun d => !isPySpace d)).length_le
       omega)

theorem infix_lower_preserve {tok s t : List Char}
    (hW : pyWords t = pyWords s) (hne : tok ≠ [])
    (htok : ∀ c ∈ tok, isPySpace c = false)
    (h : tok <:+: s.map Char.toLower) : tok <:+: t.map Char.toLower := by
  obtain ⟨w', hw'mem, hw'⟩ := infix_mem_word hne htok _ h
  rw [pyWords_map_toLower] at hw'mem
  obtain ⟨w, hwmem, rfl⟩ := List.mem_map.mp hw'mem
  have h1 : w ∈ pyWords t := by rw [hW]; exact hwmem
  have h2 : w <:+: t := mem_pyWords_infix t w h1
  exact hw'.trans (List.IsInfix.map Char.toLower h2)

theorem xssTokens_good :
    ∀ tok ∈ xssTokens, tok ≠ [] ∧ ∀ c ∈ tok, isPySpace c = false := by
  decide

theorem xssSearch_of_infix {tok s : List Char} (hmem : tok ∈ xssTokens)
    (h : tok <:+: s.map Char.toLower) : xssSearch s = true := by
  rw [xssSearch, List.any_eq_true]
  exact ⟨tok, hmem, by simpa using h⟩

/-- C4: a title, author-name or message value that contains one of the
recognised script-injection tokens `<script`, `javascript:`, `onerror=`,
`onclick=` (in any letter case, i.e. the lowercase token occurs in the
case-folded value) is rejected by the corresponding field cleaner,
whatever the surrounding content. -/
theorem script_token_always_rejected (s tok : List Char)
    (hmem : tok ∈ xssTokens) (h : tok <:+: s.map Char.toLower) :
    (∃ e, clean_title s = .error e) ∧ (∃ e, clean_author s = .error e) ∧
      (∃ e, clean_message s = .error e) := by
  obtain ⟨hne, htok⟩ := xssTokens_good tok hmem
  have hcollapse : xssSearch (pySplitJoin s) = true :=
    xssSearch_of_infix hmem
      (infix_lower_preserve (pyWords_pySplitJoin s) hne htok h)
  have hmsg : xssSearch (collapseBlank (collapseSpTab s)) = true :=
    xssSearch_of_infix hmem
      (infix_lower_preserve
        (by rw [pyWords_collapseBlank, pyWords_collapseSpTab]) hne htok h)
  refine ⟨?_, ?_, ?_⟩
  · rw [clean_title]
    split
    · exact ⟨_, rfl⟩
    · split
      · exact ⟨_, rfl⟩
      · exact ⟨_, rfl⟩
  · rw [clean_author]
    split
    · exact ⟨_, rfl⟩
    · split
      · exact ⟨_, rfl⟩
      · exact ⟨_, rfl⟩
  · rw [clean_message]
    split
    · exact ⟨_, rfl⟩
    · exact ⟨_, rfl⟩

theorem mem_clean_search_isAllowed {s : List Char} {c : Char}
    (hc : c ∈ clean_search s) : isAllowedSearch c = true := by
  rw [clean_search] at hc
  exact (List.mem_filter.mp hc).2

theorem xssTokens_have_special :
    ∀ tok ∈ xssTokens, ∃ d ∈ tok, d.toNat < 65 ∧ isAllowedSearch d = false := by
  decide

/-- C10 (amended): the search-query cleaner terminates without raising and
returns only word characters, whitespace, hyphens and apostrophes; the
whitespace collapse happens before the character strip, so the strip can
leave adjacent spaces in the result. -/
theorem clean_search_only_allowed (s : List Char) :
    ∀ c ∈ clean_search s, isAllowedSearch c = true := by
  intro c hc
  exact mem_clean_search_isAllowed hc

/-- C10 witness: the theorem applied at a concrete input and character. -/
theorem clean_search_only_allowed_witness :
    'a' ∈ clean_search "ab".data ∧ isAllowedSearch 'a' = true := by
  have hmem : 'a' ∈ clean_search "ab".data := by
    simp [clean_search, pySplitJoin, pyWords, joinSp, isPySpace, isAllowedSearch,
      isWordChar]
  exact ⟨hmem, clean_search_only_allowed "ab".data 'a' hmem⟩

/-- C10 counterexample: the cleaned result of `"a # b"` is `"a  b"`, which
still contains redundant whitespace (collapsing it again changes it), so
the claim that the result has redundant whitespace collapsed is false. -/
theorem clean_search_not_collapsed :
    clean_search "a # b".data ≠ pySplitJoin (clean_search "a # b".data) := by
  have h1 : clean_search "a # b".data = "a  b".data := by
    simp [clean_search, pySplitJoin, pyWords, joinSp, isPySpace, isAllowedSearch,
      isWordChar]
  rw [h1]
  have h2 : pySplitJoin "a  b".data = "a b".data := by
    simp [pySplitJoin, pyWords, joinSp, isPySpace]
  rw [h2]
  decide

/-- C5 (amended): the search-query validation never rejects a query for
matching a script-injection pattern; instead the cleaning strips the
dangerous characters, so no recognised injection token remains (in any
letter case) in the cleaned query, and any query within the field's
200-character limit is accepted. -/
theorem search_injection_stripped (s : List Char) :
    (∀ tok ∈ xssTokens, ¬ (tok <:+: (clean_search s).map Char.toLower)) ∧
    (s.length ≤ 200 → bookSearchForm_run s = .ok (clean_search s)) := by
  constructor
  · intro tok hmem habs
    obtain ⟨d, hd, hdlt, hdbad⟩ := xssTokens_have_special tok hmem
    obtain ⟨c, hc, hcd⟩ := List.mem_map.mp (habs.subset hd)
    have hceq : c = d := toLower_eq_self_of_lower (Or.inl (by omega)) hcd
    rw [hceq] at hc
    have := mem_clean_search_isAllowed hc
    rw [this] at hdbad
    cases hdbad
  · intro hlen
    rw [bookSearchForm_run, if_neg (by omega)]

/-- C5 witness: the amended theorem applied at a concrete injected query. -/
theorem search_injection_stripped_witness :
    ¬ ("<script".data <:+: (clean_search "<script>alert".data).map Char.toLower) ∧
    bookSearchForm_run "<script>alert".data = .ok (clean_search "<script>alert".data) := by
  constructor
  · exact (search_injection_stripped "<script>alert".data).1 "<script".data (by decide)
  · exact (search_injection_stripped "<script>alert".data).2 (by decide)

/-- C5 counterexample: the query `"<script>alert"` matches the recognised
script-injection pattern, yet the search-form validation accepts the
submission (returning the stripped query) instead of rejecting it. -/
theorem search_injection_not_rejected :
    ("<script".data <:+: ("<script>alert".data).map Char.toLower) ∧
    bookSearchForm_run "<script>alert".data = .ok "scriptalert".data := by
  constructor
  · decide
  · rw [bookSearchForm_run, if_neg (by decide)]
    have h1 : clean_search "<script>alert".data = "scriptalert".data := by
      simp [clean_search, pySplitJoin, pyWords, joinSp, isPySpace, isAllowedSearch,
        isWordChar]
    rw [h1]

/-- C4 witness: the rejection theorem applied to a concrete title
containing a case-variant of `<script`. -/
theorem script_token_always_rejected_witness :
    ("<script".data ∈ xssTokens ∧
      "<script".data <:+: ("My <SCRIPT> Book".data).map Char.toLower) ∧
    ((∃ e, clean_title "My <SCRIPT> Book".data = .error e) ∧
      (∃ e, clean_author "My <SCRIPT> Book".data = .error e) ∧
      (∃ e, clean_message "My <SCRIPT> Book".data = .error e)) :=
  ⟨⟨by decide, by decide⟩,
    script_token_always_rejected "My <SCRIPT> Book".data "<script".data
      (by decide) (by decide)⟩

/-- C1 counterexample: with the current year 2026, the serializer accepts
the year 500 although it lies outside [1000, 2100], and the form accepts
2027 although it exceeds the current year — so "accepted iff at most the
current year and within [1000, 2100]" fails for both validators. -/
theorem publication_year_claim_false :
    (validate_publication_year 500 2026 = .ok 500 ∧ ¬ (1000 ≤ (500 : Int))) ∧
    (clean_publication_year (some 2027) = .ok 2027 ∧ (2026 : Int) < 2027) := by
  refine ⟨⟨?_, by norm_num⟩, ?_, by norm_num⟩
  · rw [validate_publication_year, if_neg (by norm_num)]
  · rw [clean_publication_year]
    rw [if_neg (by norm_num)]

/-- C1 (amended): the two publication-year validators each implement half
of the stated rule.  The serializer accepts a year iff it does not exceed
the current year (no [1000, 2100] bound), and the form accepts a year iff
it lies in [1000, 2100] (never consulting the current year).  Under the
serializer, the year after the current year is rejected and the current
year itself is accepted. -/
theorem publication_year_validators (v cy : Int) :
    (validate_publication_year v cy = .ok v ↔ v ≤ cy) ∧
    (clean_publication_year (some v) = .ok v ↔ 1000 ≤ v ∧ v ≤ 2100) ∧
    validate_publication_year (cy + 1) cy =
      .error "Publication year cannot be in the future.".data ∧
    validate_publication_year cy cy = .ok cy := by
  refine ⟨?_, ?_, ?_, ?_⟩
  · by_cases h : v > cy
    · rw [validate_publication_year, if_pos h]
      simp
      omega
    · rw [validate_publication_year, if_neg h]
      simp
      omega
  · by_cases h : v < 1000 ∨ 2100 < v
    · rw [clean_publication_year, if_pos h]
      simp
      omega
    · rw [clean_publication_year, if_neg h]
      simp
      omega
  · rw [validate_publication_year, if_pos (by omega)]
  · rw [validate_publication_year, if_neg (by omega)]

/-- C6: a submission whose age field is present and under 13 with the
terms box checked is rejected as a whole, whatever the other fields
hold. -/
theorem underage_terms_rejected (i : ExampleInput) (a : Int)
    (hage : i.age = some a) (ha : a < 13) (hagree : i.agree = true) :
    exampleFormIsValid i = false := by
  rw [exampleFormIsValid]
  by_cases hneg : a < 0
  · have hbad : isOkE (ageFieldClean i.age) = false := by
      rw [hage, ageFieldClean, if_pos (Or.inl hneg)]
      rfl
    simp [hbad]
  · have hok : ageFieldClean i.age = .ok (some a) := by
      rw [hage, ageFieldClean, if_neg (by omega)]
    have hcross : exampleCrossError i = true := by
      rw [exampleCrossError, exampleCleanedAge, hok]
      simp [exampleCleanedAgree, agreeFieldClean, hagree, ha]
    simp [hcross]

/-- C6 witness: the rejection theorem applied to a concrete under-13
submission with terms accepted (and otherwise well-formed fields). -/
theorem underage_terms_rejected_witness :
    (ExampleInput.mk "John Doe".data "john@example.com".data (some 10)
        "Hello there".data true).age = some 10 ∧
    (10 : Int) < 13 ∧
    exampleFormIsValid
      (ExampleInput.mk "John Doe".data "john@example.com".data (some 10)
        "Hello there".data true) = false :=
  ⟨rfl, by norm_num,
    underage_terms_rejected _ 10 rfl (by norm_num) rfl⟩

/-- C2: a caller who is unauthenticated or lacks `can_delete` gets an
access-denied outcome from the bookshelf delete view and the book table is
left unchanged; likewise an unauthenticated caller of the API delete view
is rejected with the state unchanged. -/
theorem book_delete_denied (u : Caller) (pk : Nat) (m : HttpMethod)
    (db : List BookRec) (st : ApiState)
    (h : u.isAuthenticated = false ∨ u.perms.contains Perm.can_delete = false) :
    book_delete u pk m db = (.forbidden, db) ∧
    (u.isAuthenticated = false → bookDeleteApi u pk st = (.unauthorized, st)) := by
  have hp : hasPerm u Perm.can_delete = false := by
    rw [hasPerm]
    rcases h with h | h
    · simp [h]
    · simp only [Bool.and_eq_false_iff]
      right
      exact h
  constructor
  · rw [book_delete]
    simp [hp]
  · intro hu
    rw [bookDeleteApi]
    simp [hu]

/-- C2 witness: the denial theorem applied to an anonymous caller and a
one-book store. -/
theorem book_delete_denied_witness :
    book_delete (Caller.mk false []) 1 HttpMethod.POST
        [BookRec.mk 1 "T1".data "A1".data 2000] =
      (ViewResponse.forbidden, [BookRec.mk 1 "T1".data "A1".data 2000]) ∧
    bookDeleteApi (Caller.mk false []) 1 (ApiState.mk [] [] 1) =
      (ApiResponse.unauthorized, ApiState.mk [] [] 1) :=
  ⟨(book_delete_denied (Caller.mk false []) 1 HttpMethod.POST
      [BookRec.mk 1 "T1".data "A1".data 2000] (ApiState.mk [] [] 1)
      (Or.inl rfl)).1,
   (book_delete_denied (Caller.mk false []) 1 HttpMethod.POST
      [BookRec.mk 1 "T1".data "A1".data 2000] (ApiState.mk [] [] 1)
      (Or.inl rfl)).2 rfl⟩

/-- C3: when the permission check fails on the edit or delete view, the
response is the opaque access-denied outcome and is the same whether or
not a record with the requested id exists — the two stores may differ
arbitrarily, in particular only in that record's existence. -/
theorem denied_response_independent_of_existence (u : Caller) (pk : Nat)
    (m : HttpMethod) (post : BookFormInput) (db₁ db₂ : List BookRec) :
    (hasPerm u Perm.can_edit = false →
      (book_edit u pk m post db₁).1 = .forbidden ∧
      (book_edit u pk m post db₁).1 = (book_edit u pk m post db₂).1) ∧
    (hasPerm u Perm.can_delete = false →
      (book_delete u pk m db₁).1 = .forbidden ∧
      (book_delete u pk m db₁).1 = (book_delete u pk m db₂).1) := by
  constructor
  · intro he
    rw [book_edit, book_edit]
    simp [he]
  · intro hd
    rw [book_delete, book_delete]
    simp [hd]

/-- C3 witness: the theorem applied to an anonymous caller, once with the
record present and once with it absent. -/
theorem denied_response_independent_of_existence_witness :
    (book_edit (Caller.mk false []) 1 HttpMethod.POST
        (BookFormInput.mk "T2".data "A2".data (some 2000))
        [BookRec.mk 1 "T1".data "A1".data 2000]).1 = ViewResponse.forbidden ∧
    (book_edit (Caller.mk false []) 1 HttpMethod.POST
        (BookFormInput.mk "T2".data "A2".data (some 2000))
        [BookRec.mk 1 "T1".data "A1".data 2000]).1 =
      (book_edit (Caller.mk false []) 1 HttpMethod.POST
        (BookFormInput.mk "T2".data "A2".data (some 2000)) []).1 ∧
    (book_delete (Caller.mk false []) 1 HttpMethod.POST
        [BookRec.mk 1 "T1".data "A1".data 2000]).1 = ViewResponse.forbidden ∧
    (book_delete (Caller.mk false []) 1 HttpMethod.POST
        [BookRec.mk 1 "T1".data "A1".data 2000]).1 =
      (book_delete (Caller.mk false []) 1 HttpMethod.POST []).1 := by
  have h := denied_response_independent_of_existence (Caller.mk false []) 1
    HttpMethod.POST (BookFormInput.mk "T2".data "A2".data (some 2000))
    [BookRec.mk 1 "T1".data "A1".data 2000] []
  exact ⟨(h.1 (by decide)).1, (h.1 (by decide)).2,
    (h.2 (by decide)).1, (h.2 (by decide)).2⟩

/-- C7: the exact publication-year filter returns exactly the records
whose `publication_year` equals the requested year. -/
theorem filter_books_by_year_spec (books : List ApiBook) (y : Int) (b : ApiBook) :
    b ∈ filterBooksByYear books y ↔ b ∈ books ∧ b.publication_year = y := by
  rw [filterBooksByYear, List.mem_filter]
  simp

/-- C7 witness: the filter characterisation applied to the test fixture
(one matching book). -/
theorem filter_books_by_year_spec_witness :
    ApiBook.mk 1 "Harry Potter".data 1997 1 ∈
      filterBooksByYear [ApiBook.mk 1 "Harry Potter".data 1997 1,
        ApiBook.mk 2 "The Hobbit".data 1937 2] 1997 :=
  (filter_books_by_year_spec _ 1997 _).mpr ⟨by decide, rfl⟩

/-- C8: an authenticated caller submitting serializer-valid data gets a
created response, and retrieving the new record's id immediately
afterwards returns exactly that record (the freshness hypothesis is the
store's autoincrement invariant: every existing id is below the
counter). -/
theorem create_then_retrieve (u : Caller) (cy : Int) (i : BookInput)
    (st : ApiState) (hauth : u.isAuthenticated = true)
    (hfresh : ∀ b ∈ st.books, b.id < st.nextId)
    (hvalid : serializerValidate st.authors cy i = true) :
    bookCreate u cy i st =
      (ApiResponse.created (ApiBook.mk st.nextId i.title i.publication_year i.author),
       ApiState.mk (st.books ++ [ApiBook.mk st.nextId i.title i.publication_year i.author])
         st.authors (st.nextId + 1)) ∧
    bookRetrieve st.nextId
        (ApiState.mk (st.books ++ [ApiBook.mk st.nextId i.title i.publication_year i.author])
          st.authors (st.nextId + 1)) =
      ApiResponse.ok (ApiBook.mk st.nextId i.title i.publication_year i.author) := by
  constructor
  · rw [bookCreate]
    simp [hauth, hvalid]
  · rw [bookRetrieve]
    simp only
    rw [List.find?_append]
    have h1 : st.books.find? (fun b => b.id == st.nextId) = none := by
      rw [List.find?_eq_none]
      intro x hx
      simp only [beq_iff_eq]
      exact Nat.ne_of_lt (hfresh x hx)
    rw [h1]
    simp [List.find?]

/-- C8 witness: the round-trip theorem applied to the test fixture
(authenticated user creating "The Hobbit"). -/
theorem create_then_retrieve_witness :
    serializerValidate [1] 2026 (BookInput.mk "The Hobbit".data 1937 1) = true ∧
    bookCreate (Caller.mk true []) 2026 (BookInput.mk "The Hobbit".data 1937 1)
        (ApiState.mk [] [1] 1) =
      (ApiResponse.created (ApiBook.mk 1 "The Hobbit".data 1937 1),
       ApiState.mk [ApiBook.mk 1 "The Hobbit".data 1937 1] [1] 2) ∧
    bookRetrieve 1 (ApiState.mk [ApiBook.mk 1 "The Hobbit".data 1937 1] [1] 2) =
      ApiResponse.ok (ApiBook.mk 1 "The Hobbit".data 1937 1) := by
  have h := create_then_retrieve (Caller.mk true []) 2026
    (BookInput.mk "The Hobbit".data 1937 1) (ApiState.mk [] [1] 1) rfl
    (by intro b hb; cases hb) (by decide)
  exact ⟨by decide, h.1, h.2⟩

/-- C9: creating a user installs a profile for that user with the default
role Member, and the invariant "every user has a profile" is established
by user creation and preserved by user re-save, role update and user
deletion (profiles cascade). -/
theorem user_profile_invariant (st : AuthState) (uid : Nat) (r : Role)
    (hinv : profileInvariant st) (hnew : st.users.contains uid = false) :
    (∃ p ∈ (createUser uid st).profiles, p.userId = uid ∧ p.role = Role.Member) ∧
    profileInvariant (createUser uid st) ∧
    profileInvariant (saveUser uid st) ∧
    profileInvariant (setRole uid r st) ∧
    profileInvariant (deleteUser uid st) := by
  have hc : createUser uid st =
      AuthState.mk (st.users ++ [uid]) (st.profiles ++ [Profile.mk uid Role.Member]) := by
    rw [createUser, if_neg (by rw [hnew]; exact Bool.false_ne_true), create_user_profile]
  refine ⟨?_, ?_, ?_, ?_, ?_⟩
  · rw [hc]
    exact ⟨Profile.mk uid Role.Member,
      List.mem_append_right _ (List.mem_singleton.mpr rfl), rfl, rfl⟩
  · rw [hc]
    intro u hu
    rcases List.mem_append.mp hu with hu' | hu'
    · obtain ⟨p, hp, hpu⟩ := hinv u hu'
      exact ⟨p, List.mem_append_left _ hp, hpu⟩
    · refine ⟨Profile.mk uid Role.Member,
        List.mem_append_right _ (List.mem_singleton.mpr rfl), ?_⟩
      rw [List.mem_singleton.mp hu']
  · rw [saveUser]
    exact hinv
  · intro u hu
    obtain ⟨p, hp, hpu⟩ := hinv u hu
    refine ⟨if p.userId == uid then Profile.mk p.userId r else p, ?_, ?_⟩
    · exact List.mem_map_of_mem _ hp
    · split <;> exact hpu
  · intro u hu
    rw [deleteUser] at hu
    simp only at hu
    obtain ⟨hu', hne⟩ := List.mem_filter.mp hu
    obtain ⟨p, hp, hpu⟩ := hinv u hu'
    refine ⟨p, ?_, hpu⟩
    rw [deleteUser]
    simp only
    rw [List.mem_filter]
    refine ⟨hp, ?_⟩
    rw [hpu]
    exact hne

/-- C9 witness: the invariant theorem applied to an empty store, a fresh
user id and a role update. -/
theorem user_profile_invariant_witness :
    (∃ p ∈ (createUser 1 (AuthState.mk [] [])).profiles,
      p.userId = 1 ∧ p.role = Role.Member) ∧
    profileInvariant (createUser 1 (AuthState.mk [] [])) ∧
    profileInvariant (deleteUser 1 (AuthState.mk [] [])) := by
  have h := user_profile_invariant (AuthState.mk [] []) 1 Role.Admin
    (by intro u hu; cases hu) rfl
  exact ⟨h.1, h.2.1, h.2.2.2.2⟩
